import Mathlib

/-!
Verification development for the Delta Engine demo game
(`deltaflames4k6.23.25.py`): a shallow embedding of the save-file
utilities, the scene machine (title scene, chapter scenes, the scene
factory) and the game loop's scene management, together with theorems
about the specified behaviour.

Machine integers: CPython integers are unbounded, so `ℤ`/`ℕ` model them
exactly.  `pygame.Rect` stores integer coordinates and converts float
arguments of `move_ip` with a C cast, i.e. truncation toward zero; the
float arithmetic `speed * dt / 1000` on the values reachable here is
modelled exactly by rationals (the quantities involved have denominator
at most 1000, so rounding of the binary floats can never cross an
integer boundary before the truncating cast).
-/

namespace DeltaEngine

/-- JSON values in the vocabulary of the save file: objects, arrays,
strings without escape sequences, integers, booleans and null.
(Floating point numbers never occur in the save format and are not
modelled.)  This is the result type of the embedded `json.loads`. -/
inductive Json where
  | jnull : Json
  | jbool : Bool → Json
  | jint : ℤ → Json
  | jstr : String → Json
  | jarr : List Json → Json
  | jobj : List (String × Json) → Json

/-- The state of the save file on disk: `SAVE_PATH` either does not
exist, or holds some text. -/
inductive FileState where
  | missing : FileState
  | present : String → FileState
deriving DecidableEq

/-- Whitespace characters skipped by the JSON parser. -/
def isWsChar (c : Char) : Bool :=
  c = ' ' || c = '\n' || c = '\t' || c = '\r'

/-- Drop leading whitespace. -/
def skipWs : List Char → List Char
  | [] => []
  | c :: cs => if isWsChar c then skipWs cs else c :: cs

/-- Decimal digit test. -/
def isDigitChar (c : Char) : Bool :=
  '0' ≤ c && c ≤ '9'

/-- Numeric value of a decimal digit character. -/
def digitVal (c : Char) : ℕ := c.toNat - 48

/-- Split a character list into its maximal leading run of decimal
digits and the remainder. -/
def takeDigits : List Char → List Char × List Char
  | [] => ([], [])
  | c :: cs =>
    if isDigitChar c then
      let p := takeDigits cs
      (c :: p.1, p.2)
    else ([], c :: cs)

/-- Value of a big-endian list of decimal digit characters. -/
def parseNatChars (ds : List Char) : ℕ :=
  ds.foldl (fun a c => 10 * a + digitVal c) 0

/-- Parse a JSON integer (optional minus sign, then digits). -/
def parseNum (cs : List Char) : Option (Json × List Char) :=
  match cs with
  | [] => none
  | c :: cs' =>
    if c = '-' then
      match takeDigits cs' with
      | ([], _) => none
      | (d :: ds, rest) => some (.jint (-(parseNatChars (d :: ds) : ℤ)), rest)
    else
      match takeDigits (c :: cs') with
      | ([], _) => none
      | (d :: ds, rest) => some (.jint ((parseNatChars (d :: ds) : ℤ)), rest)

/-- Body of a JSON string after the opening quote: plain characters up
to the closing quote (escape sequences are rejected; none occur in the
save format). -/
def strBody : List Char → Option (List Char × List Char)
  | [] => none
  | c :: cs =>
    if c = '"' then some ([], cs)
    else if c = '\\' then none
    else
      match strBody cs with
      | some (s, rest) => some (c :: s, rest)
      | none => none

/-- Parse a quoted JSON string. -/
def parseStrRaw (cs : List Char) : Option (String × List Char) :=
  match cs with
  | '"' :: cs' =>
    match strBody cs' with
    | some (s, rest) => some (String.mk s, rest)
    | none => none
  | _ => none

/-- Consume an expected literal character sequence. -/
def expectChars : List Char → List Char → Option (List Char)
  | [], cs => some cs
  | p :: ps, c :: cs => if c = p then expectChars ps cs else none
  | _ :: _, [] => none

mutual

/-- Recursive-descent JSON value parser (the embedded `json.loads`
core).  The fuel argument only bounds the recursion; every recursive
call consumes at least one input character, so fuel `length + 1` never
runs out (see `jsonLoads`). -/
def parseVal : ℕ → List Char → Option (Json × List Char)
  | 0, _ => none
  | f + 1, cs =>
    match skipWs cs with
    | [] => none
    | c :: cs' =>
      if c = '\x7b' then
        match skipWs cs' with
        | '\x7d' :: rest => some (.jobj [], rest)
        | cs2 =>
          match parseFields f cs2 with
          | some (fields, rest) =>
            match skipWs rest with
            | '\x7d' :: rest' => some (.jobj fields, rest')
            | _ => none
          | none => none
      else if c = '[' then
        match skipWs cs' with
        | ']' :: rest => some (.jarr [], rest)
        | cs2 =>
          match parseElems f cs2 with
          | some (xs, rest) =>
            match skipWs rest with
            | ']' :: rest' => some (.jarr xs, rest')
            | _ => none
          | none => none
      else if c = '"' then
        match strBody cs' with
        | some (s, rest) => some (.jstr (String.mk s), rest)
        | none => none
      else if c = '-' ∨ isDigitChar c then parseNum (c :: cs')
      else if c = 't' then
        match expectChars ['r', 'u', 'e'] cs' with
        | some rest => some (.jbool true, rest)
        | none => none
      else if c = 'f' then
        match expectChars ['a', 'l', 's', 'e'] cs' with
        | some rest => some (.jbool false, rest)
        | none => none
      else if c = 'n' then
        match expectChars ['u', 'l', 'l'] cs' with
        | some rest => some (.jnull, rest)
        | none => none
      else none

/-- Parse a nonempty comma-separated list of `"key": value` members. -/
def parseFields : ℕ → List Char → Option (List (String × Json) × List Char)
  | 0, _ => none
  | f + 1, cs =>
    match parseStrRaw (skipWs cs) with
    | none => none
    | some (k, rest) =>
      match skipWs rest with
      | ':' :: rest2 =>
        match parseVal f rest2 with
        | none => none
        | some (v, rest3) =>
          match skipWs rest3 with
          | ',' :: rest4 =>
            match parseFields f rest4 with
            | some (fields, r) => some ((k, v) :: fields, r)
            | none => none
          | rest3' => some ([(k, v)], rest3')
      | _ => none

/-- Parse a nonempty comma-separated list of array elements. -/
def parseElems : ℕ → List Char → Option (List Json × List Char)
  | 0, _ => none
  | f + 1, cs =>
    match parseVal f cs with
    | none => none
    | some (v, rest) =>
      match skipWs rest with
      | ',' :: rest2 =>
        match parseElems f rest2 with
        | some (xs, r) => some (v :: xs, r)
        | none => none
      | rest' => some ([v], rest')

end

/-- The embedded `json.loads`: parse a complete JSON document; trailing
whitespace is permitted, anything else is a parse failure. -/
def jsonLoads (s : String) : Option Json :=
  match parseVal (s.data.length + 1) s.data with
  | some (j, rest) => if skipWs rest = [] then some j else none
  | none => none

/-- Decimal digit character for a value below ten. -/
def digitChar (d : ℕ) : Char :=
  match d with
  | 0 => '0' | 1 => '1' | 2 => '2' | 3 => '3' | 4 => '4'
  | 5 => '5' | 6 => '6' | 7 => '7' | 8 => '8' | _ => '9'

/-- Big-endian decimal digits of a positive number; the first argument
is recursion fuel (any fuel at least the number itself is enough). -/
def natCharsAux : ℕ → ℕ → List Char
  | _, 0 => []
  | 0, _ => []
  | f + 1, n + 1 =>
    natCharsAux f ((n + 1) / 10) ++ [digitChar ((n + 1) % 10)]

/-- Decimal representation of a natural number (as `repr` prints it). -/
def natChars (n : ℕ) : List Char :=
  if n = 0 then ['0'] else natCharsAux n n

/-- Decimal representation of an integer (as Python prints it). -/
def intChars (n : ℤ) : List Char :=
  if n < 0 then '-' :: natChars n.natAbs else natChars n.natAbs

/-- The in-memory save record in the shape the engine reads and
writes: `{"chapter": c, "player": {"x": x, "y": y}}`. -/
structure SaveRec where
  chapter : ℤ
  x : ℤ
  y : ℤ
deriving DecidableEq

/-- The JSON document corresponding to a save record. -/
def SaveRec.toJson (r : SaveRec) : Json :=
  .jobj [("chapter", .jint r.chapter),
         ("player", .jobj [("x", .jint r.x), ("y", .jint r.y)])]

/-- The text `json.dumps(data, indent=2)` produces for a save record. -/
def dumpSave (r : SaveRec) : List Char :=
  '\x7b' :: '\n' :: ' ' :: ' ' :: '"' :: 'c' :: 'h' :: 'a' :: 'p' :: 't' :: 'e' :: 'r' :: '"' :: ':' :: ' ' ::
    (intChars r.chapter ++
      (',' :: '\n' :: ' ' :: ' ' :: '"' :: 'p' :: 'l' :: 'a' :: 'y' :: 'e' :: 'r' :: '"' :: ':' :: ' ' ::
        '\x7b' :: '\n' :: ' ' :: ' ' :: ' ' :: ' ' :: '"' :: 'x' :: '"' :: ':' :: ' ' ::
        (intChars r.x ++
          (',' :: '\n' :: ' ' :: ' ' :: ' ' :: ' ' :: '"' :: 'y' :: '"' :: ':' :: ' ' ::
            (intChars r.y ++
              ('\n' :: ' ' :: ' ' :: '\x7d' :: '\n' :: '\x7d' :: []))))))

/-- The default record substituted by `load_save` when the file is
missing or corrupt. -/
def defaultSave : Json :=
  .jobj [("chapter", .jint 1), ("player", .jobj [("x", .jint 50), ("y", .jint 50)])]

/-- `load_save()`: if the file exists, try to parse it, substituting
the default record on any failure (the failure is only logged); if it
does not exist, return the default record.  Total, hence it never
raises to its caller. -/
def load_save (fs : FileState) : Json :=
  match fs with
  | .missing => defaultSave
  | .present s =>
    match jsonLoads s with
    | some j => j
    | none => defaultSave

/-- `write_save(data)`: overwrite `SAVE_PATH` with
`json.dumps(data, indent=2)`.  The previous file state is irrelevant:
`Path.write_text` truncates. -/
def write_save (r : SaveRec) (_fs : FileState) : FileState :=
  .present (String.mk (dumpSave r))

/-- Outcome of the underlying OS file write. -/
inductive WriteOutcome where
  | ok : WriteOutcome
  | ioError : WriteOutcome
deriving DecidableEq

/-- `write_save` with the fallibility of `Path.write_text` made
explicit.  The body of `write_save` contains no exception handler, so
an OS-level failure propagates to the caller unchanged. -/
def write_saveE (r : SaveRec) (fs : FileState) (w : WriteOutcome) :
    Except String FileState :=
  match w with
  | .ok => .ok (write_save r fs)
  | .ioError => .error "IOError"

/-- Last-occurrence lookup in a JSON object's member list (later
duplicate keys overwrite earlier ones in a Python dict). -/
def lookupField : List (String × Json) → String → Option Json
  | [], _ => none
  | (k, v) :: rest, key =>
    match lookupField rest key with
    | some w => some w
    | none => if k = key then some v else none

/-- The SaveRecord shape invariant of the specification: an object with
an integer `chapter` member (any integer identifies a scene variant,
the factory falling back to the generic one) and a `player` member
holding numeric `x` and `y`. -/
def validRecordShape (j : Json) : Bool :=
  match j with
  | .jobj fields =>
    (match lookupField fields "chapter" with
     | some (.jint _) => true
     | _ => false) &&
    (match lookupField fields "player" with
     | some (.jobj p) =>
       (match lookupField p "x" with
        | some (.jint _) => true
        | _ => false) &&
       (match lookupField p "y" with
        | some (.jint _) => true
        | _ => false)
     | _ => false)
  | _ => false

/-- Truncation toward zero of a rational, as the C `(int)` cast that
`pygame.Rect` applies to float arguments. -/
def truncQ (q : ℚ) : ℤ := if 0 ≤ q then ⌊q⌋ else ⌈q⌉

/-- `pygame.Rect`: integer position and size. -/
structure Rect where
  x : ℤ
  y : ℤ
  w : ℤ
  h : ℤ
deriving DecidableEq

/-- `Rect.move_ip(dx, dy)`: each float offset is converted to an
integer by truncation toward zero, then added in place. -/
def Rect.move_ip (r : Rect) (dx dy : ℚ) : Rect :=
  { r with x := r.x + truncQ dx, y := r.y + truncQ dy }

/-- The snapshot of `pygame.key.get_pressed()` for the keys the engine
reads: escape and the four movement keys a/d/w/s. -/
structure Keys where
  escape : Bool
  k_a : Bool
  k_d : Bool
  k_w : Bool
  k_s : Bool
deriving DecidableEq

/-- No key held down. -/
def noKeys : Keys := ⟨false, false, false, false, false⟩

/-- Only the right-movement key (`d`) held down. -/
def rightKey : Keys := ⟨false, false, true, false, false⟩

/-- Right (`d`) and down (`s`) held down simultaneously. -/
def rightDownKeys : Keys := ⟨false, false, true, false, true⟩

/-- Which of the five scene classes a chapter scene instance belongs
to: the four named subclasses (all with empty bodies) or the generic
`ChapterScene` base. -/
inductive ChapterVariant where
  | one : ChapterVariant
  | two : ChapterVariant
  | three : ChapterVariant
  | four : ChapterVariant
  | base : ChapterVariant
deriving DecidableEq

/-- A chapter scene instance: its class, `chapter_no`, the player
rectangle, the movement speed, and `world_color` (absent before
`start()` runs, hence an `Option`). -/
structure ChapterScene where
  variant : ChapterVariant
  chapter_no : ℤ
  player : Rect
  speed : ℚ
  world_color : Option (ℤ × ℤ × ℤ)
deriving DecidableEq

/-- `ChapterScene.__init__(game, chapter_no)` run by class `v`:
`player = pg.Rect(50, 50, 16, 24)`, `speed = 120`; `world_color` is
not yet set. -/
def ChapterScene.init (v : ChapterVariant) (ch : ℤ) : ChapterScene :=
  { variant := v, chapter_no := ch, player := ⟨50, 50, 16, 24⟩,
    speed := 120, world_color := none }

/-- `ChapterScene.make(ch)`: `mapping.get(ch, ChapterScene)` picks the
class, then runs `__init__` with `chapter_no = ch`.  Total on `ℤ`. -/
def ChapterScene.make (ch : ℤ) : ChapterScene :=
  ChapterScene.init
    (if ch = 1 then .one else if ch = 2 then .two
     else if ch = 3 then .three else if ch = 4 then .four else .base)
    ch

/-- The same instance data reassigned to class `v` (the subclasses add
no members, so this is the whole difference between variants). -/
def ChapterScene.retag (c : ChapterScene) (v : ChapterVariant) : ChapterScene :=
  { c with variant := v }

/-- The active scene of the game: the title scene (with its
accumulated timer, in milliseconds) or a chapter scene. -/
inductive Scene where
  | title : ℕ → Scene
  | chapter : ChapterScene → Scene
deriving DecidableEq

/-- `Scene` with any chapter instance reassigned to class `v`. -/
def Scene.retagChapter : Scene → ChapterVariant → Scene
  | .title t, _ => .title t
  | .chapter c, v => .chapter (c.retag v)

/-- Identity of a scene for lifecycle events. -/
inductive SceneTag where
  | titleT : SceneTag
  | chapterT : ℤ → SceneTag
deriving DecidableEq

/-- Lifecycle events observed during scene transitions: `stop()` of
the outgoing scene and `start()` of the incoming scene. -/
inductive Event where
  | stopEv : SceneTag → Event
  | startEv : SceneTag → Event
deriving DecidableEq

/-- The tag of a scene. -/
def tagOf : Scene → SceneTag
  | .title _ => .titleT
  | .chapter c => .chapterT c.chapter_no

/-- The `DeltaGame` state relevant to the scene machine: the shared
in-memory save record, the active scene, and the save file on disk. -/
structure Game where
  save : SaveRec
  scene : Scene
  disk : FileState
deriving DecidableEq

/-- `scene.start()`: the title scene resets its timer; a chapter scene
derives `world_color` from its chapter number. -/
def sceneStartScene : Scene → Scene
  | .title _ => .title 0
  | .chapter c =>
    .chapter
      { c with
        world_color := some (50 * c.chapter_no, 20 * c.chapter_no, 60 * c.chapter_no) }

/-- `self.scene.stop()`: the title scene inherits the no-op
`SceneBase.stop`; a chapter scene writes its chapter number and player
position into the shared save record and calls `write_save`.  Returns
the updated game state and the emitted lifecycle event. -/
def sceneStop (g : Game) : Game × List Event :=
  match g.scene with
  | .title _ => (g, [.stopEv .titleT])
  | .chapter c =>
    let s : SaveRec := ⟨c.chapter_no, c.player.x, c.player.y⟩
    ({ g with save := s, disk := write_save s g.disk },
     [.stopEv (.chapterT c.chapter_no)])

/-- `DeltaGame.change_scene(new_scene)`: stop the active scene, bind
the game reference on the incoming scene, install it, start it. -/
def change_scene (g : Game) (next : Scene) : Game × List Event :=
  let s := sceneStop g
  ({ s.1 with scene := sceneStartScene next }, s.2 ++ [.startEv (tagOf next)])

/-- One `scene.update(dt)` call dispatched on the active scene.
Title: accumulate the timer and, once it exceeds 2000 ms, change to
the chapter scene made from the saved chapter.  Chapter: if escape is
held, change back to a fresh title scene (the movement that the source
then still applies happens on the already-replaced instance and never
reaches the game state); otherwise move the player by
`±speed * dt / 1000` per held movement key, truncated per axis by
`Rect.move_ip`. -/
def sceneUpdate (g : Game) (keys : Keys) (dt : ℕ) : Game × List Event :=
  match g.scene with
  | .title t =>
    let t' := t + dt
    if 2000 < t' then
      change_scene { g with scene := .title t' }
        (.chapter (ChapterScene.make g.save.chapter))
    else ({ g with scene := .title t' }, [])
  | .chapter c =>
    if keys.escape then
      change_scene g (.title 0)
    else
      let v : ℚ := c.speed * (dt : ℚ) / 1000
      let dx : ℚ := (if keys.k_a then -v else 0) + (if keys.k_d then v else 0)
      let dy : ℚ := (if keys.k_w then -v else 0) + (if keys.k_s then v else 0)
      ({ g with scene := .chapter { c with player := c.player.move_ip dx dy } }, [])

/-- Iterate `sceneUpdate` over a list of frame durations, collecting
the lifecycle events in order. -/
def runUpdates (g : Game) (keys : Keys) : List ℕ → Game × List Event
  | [] => (g, [])
  | dt :: dts =>
    let s := sceneUpdate g keys dt
    let r := runUpdates s.1 keys dts
    (r.1, s.2 ++ r.2)

/-- `DeltaGame.__init__(save_data)`: adopt the given save record and
start a fresh title scene. -/
def DeltaGame.init (r : SaveRec) (d : FileState) : Game :=
  { save := r, scene := sceneStartScene (.title 0), disk := d }

/-! ### Decimal round-trip: parsing the digits the serializer emits -/

/-- `rest` does not begin with a decimal digit (so a digit run ends
exactly there). -/
def noDigitHead : List Char → Prop
  | [] => True
  | c :: _ => isDigitChar c = false

theorem digitChar_isDigit (d : ℕ) : isDigitChar (digitChar d) = true := by
  rcases d with _ | _ | _ | _ | _ | _ | _ | _ | _ | d <;> rfl

theorem digitVal_digitChar (d : ℕ) (h : d < 10) : digitVal (digitChar d) = d := by
  rcases d with _ | _ | _ | _ | _ | _ | _ | _ | _ | _ | d
  · rfl
  · rfl
  · rfl
  · rfl
  · rfl
  · rfl
  · rfl
  · rfl
  · rfl
  · rfl
  · omega

theorem digit_not_ws (c : Char) (h : isDigitChar c = true) : isWsChar c = false := by
  by_contra h'
  have hw : isWsChar c = true := by
    cases hev : isWsChar c
    · exact absurd hev h'
    · rfl
  simp only [isWsChar, Bool.or_eq_true, decide_eq_true_eq] at hw
  rcases hw with ((h1 | h1) | h1) | h1 <;> subst h1 <;> exact absurd h (by decide)

theorem natCharsAux_digits (f : ℕ) :
    ∀ n, ∀ c ∈ natCharsAux f n, isDigitChar c = true := by
  induction f with
  | zero =>
    intro n c hc
    cases n <;> simp [natCharsAux] at hc
  | succ f ih =>
    intro n c hc
    cases n with
    | zero => simp [natCharsAux] at hc
    | succ m =>
      simp only [natCharsAux, List.mem_append, List.mem_singleton] at hc
      rcases hc with hc | hc
      · exact ih _ c hc
      · subst hc; exact digitChar_isDigit _

theorem natChars_digits (n : ℕ) : ∀ c ∈ natChars n, isDigitChar c = true := by
  intro c hc
  unfold natChars at hc
  by_cases h : n = 0
  · simp [h] at hc; subst hc; rfl
  · simp only [h, if_false] at hc
    exact natCharsAux_digits n n c hc

theorem natChars_ne_nil (n : ℕ) : natChars n ≠ [] := by
  unfold natChars
  by_cases h : n = 0
  · simp [h]
  · simp only [h, if_false]
    obtain ⟨m, rfl⟩ : ∃ m, n = m + 1 := ⟨n - 1, by omega⟩
    simp [natCharsAux]

theorem parseNatChars_append_one (l : List Char) (c : Char) :
    parseNatChars (l ++ [c]) = 10 * parseNatChars l + digitVal c := by
  simp [parseNatChars, List.foldl_append]

theorem parseNatChars_natCharsAux (f : ℕ) :
    ∀ n, n ≤ f → parseNatChars (natCharsAux f n) = n := by
  induction f with
  | zero =>
    intro n hn
    interval_cases n
    rfl
  | succ f ih =>
    intro n hn
    cases n with
    | zero => rfl
    | succ m =>
      have hdiv : (m + 1) / 10 < m + 1 := Nat.div_lt_self (Nat.succ_pos m) (by norm_num)
      have hle : (m + 1) / 10 ≤ f := by omega
      calc parseNatChars (natCharsAux (f + 1) (m + 1))
          = parseNatChars (natCharsAux f ((m + 1) / 10) ++ [digitChar ((m + 1) % 10)]) := rfl
        _ = 10 * parseNatChars (natCharsAux f ((m + 1) / 10)) + digitVal (digitChar ((m + 1) % 10)) :=
            parseNatChars_append_one _ _
        _ = 10 * ((m + 1) / 10) + (m + 1) % 10 := by
            rw [ih _ hle, digitVal_digitChar _ (Nat.mod_lt _ (by norm_num))]
        _ = m + 1 := by omega

theorem parseNatChars_natChars (n : ℕ) : parseNatChars (natChars n) = n := by
  unfold natChars
  by_cases h : n = 0
  · subst h; rfl
  · simp only [h, if_false]
    exact parseNatChars_natCharsAux n n le_rfl

theorem takeDigits_append (ds rest : List Char)
    (h1 : ∀ c ∈ ds, isDigitChar c = true) (h2 : noDigitHead rest) :
    takeDigits (ds ++ rest) = (ds, rest) := by
  induction ds with
  | nil =>
    cases rest with
    | nil => rfl
    | cons c t =>
      have : isDigitChar c = false := h2
      simp [takeDigits, this]
  | cons d ds ih =>
    have hd : isDigitChar d = true := h1 d (by simp)
    have ih' := ih (fun c hc => h1 c (by simp [hc]))
    simp [takeDigits, hd, ih']

theorem parseNum_natChars (a : ℕ) (rest : List Char) (h : noDigitHead rest) :
    parseNum (natChars a ++ rest) = some (.jint (a : ℤ), rest) := by
  obtain ⟨d, ds, hds⟩ : ∃ d ds, natChars a = d :: ds := by
    cases hn : natChars a with
    | nil => exact absurd hn (natChars_ne_nil a)
    | cons d ds => exact ⟨d, ds, rfl⟩
  have hd : isDigitChar d = true := natChars_digits a d (by rw [hds]; simp)
  have hdash : ¬ (d = '-') := by
    intro e; subst e; exact absurd hd (by decide)
  have htake : takeDigits ((d :: ds) ++ rest) = (d :: ds, rest) := by
    rw [← hds]
    exact takeDigits_append _ _ (natChars_digits a) h
  rw [hds, List.cons_append]
  simp only [parseNum, hdash, if_false, ← List.cons_append, htake]
  rw [← hds, parseNatChars_natChars]

theorem parseNum_intChars (n : ℤ) (rest : List Char) (h : noDigitHead rest) :
    parseNum (intChars n ++ rest) = some (.jint n, rest) := by
  unfold intChars
  by_cases hn : n < 0
  · simp only [hn, if_true, List.cons_append]
    obtain ⟨d, ds, hds⟩ : ∃ d ds, natChars n.natAbs = d :: ds := by
      cases he : natChars n.natAbs with
      | nil => exact absurd he (natChars_ne_nil _)
      | cons d ds => exact ⟨d, ds, rfl⟩
    have htake : takeDigits (natChars n.natAbs ++ rest) = (natChars n.natAbs, rest) :=
      takeDigits_append _ _ (natChars_digits _) h
    have step : parseNum ('-' :: (natChars n.natAbs ++ rest))
        = (match takeDigits (natChars n.natAbs ++ rest) with
           | ([], _) => none
           | (d :: ds, r) => some (.jint (-(parseNatChars (d :: ds) : ℤ)), r)) := rfl
    rw [step, htake, hds]
    show some (Json.jint (-(parseNatChars (d :: ds) : ℤ)), rest) = some (Json.jint n, rest)
    rw [← hds, parseNatChars_natChars]
    have habs : ((n.natAbs : ℤ)) = -n := by
      rcases Int.natAbs_eq n with he | he
      · omega
      · omega
    rw [habs]
    simp
  · simp only [hn, if_false]
    rw [parseNum_natChars _ _ h]
    have : ((n.natAbs : ℤ)) = n := by
      rcases Int.natAbs_eq n with he | he
      · omega
      · omega
    rw [this]

theorem skipWs_not_ws (c : Char) (cs : List Char) (h : isWsChar c = false) :
    skipWs (c :: cs) = c :: cs := by
  simp [skipWs, h]

theorem skipWs_ws (c : Char) (cs : List Char) (h : isWsChar c = true) :
    skipWs (c :: cs) = skipWs cs := by
  simp [skipWs, h]

theorem parseVal_ws_skip (f : ℕ) (c : Char) (cs : List Char) (h : isWsChar c = true) :
    parseVal (f + 1) (c :: cs) = parseVal (f + 1) cs := by
  simp only [parseVal, skipWs_ws c cs h]

theorem parseVal_int (f : ℕ) (n : ℤ) (rest : List Char) (h : noDigitHead rest) :
    parseVal (f + 1) (intChars n ++ rest) = some (.jint n, rest) := by
  have key : parseNum (intChars n ++ rest) = some (.jint n, rest) :=
    parseNum_intChars n rest h
  obtain ⟨c, t, hct, hc⟩ :
      ∃ c t, intChars n = c :: t ∧ (c = '-' ∨ isDigitChar c = true) := by
    unfold intChars
    by_cases hn : n < 0
    · exact ⟨'-', natChars n.natAbs, by simp [hn], Or.inl rfl⟩
    · obtain ⟨d, ds, hds⟩ : ∃ d ds, natChars n.natAbs = d :: ds := by
        cases he : natChars n.natAbs with
        | nil => exact absurd he (natChars_ne_nil _)
        | cons d ds => exact ⟨d, ds, rfl⟩
      exact ⟨d, ds, by simp [hn, hds],
        Or.inr (natChars_digits _ d (by rw [hds]; simp))⟩
  have hcw : isWsChar c = false := by
    rcases hc with hc | hc
    · subst hc; rfl
    · exact digit_not_ws c hc
  have hobj : ¬ (c = '\x7b') := by
    rcases hc with hc | hc
    · subst hc; decide
    · intro e; subst e; exact absurd hc (by decide)
  have harr : ¬ (c = '[') := by
    rcases hc with hc | hc
    · subst hc; decide
    · intro e; subst e; exact absurd hc (by decide)
  have hquote : ¬ (c = '"') := by
    rcases hc with hc | hc
    · subst hc; decide
    · intro e; subst e; exact absurd hc (by decide)
  have hnum : c = '-' ∨ isDigitChar c = true := hc
  rw [hct, List.cons_append] at key ⊢
  simp only [parseVal, skipWs_not_ws c _ hcw]
  simp only [hobj, if_false, harr, hquote, if_pos hnum]
  exact key

theorem parseVal_sp_int_comma (f : ℕ) (n : ℤ) (R : List Char) :
    parseVal (f + 1) (' ' :: (intChars n ++ (',' :: R))) = some (.jint n, ',' :: R) := by
  rw [parseVal_ws_skip f ' ' _ rfl]
  exact parseVal_int f n (',' :: R) (by exact rfl)

theorem parseVal_sp_int_nl (f : ℕ) (n : ℤ) (R : List Char) :
    parseVal (f + 1) (' ' :: (intChars n ++ ('\n' :: R))) = some (.jint n, '\n' :: R) := by
  rw [parseVal_ws_skip f ' ' _ rfl]
  exact parseVal_int f n ('\n' :: R) (by exact rfl)

/-! ### Parsing the exact serializer output (`write` then `load`) -/

theorem parseY_member (f : ℕ) (y : ℤ) :
    parseFields (f + 1 + 1)
        ('\n' :: ' ' :: ' ' :: ' ' :: ' ' :: '"' :: 'y' :: '"' :: ':' :: ' ' ::
          (intChars y ++ ('\n' :: ' ' :: ' ' :: '\x7d' :: '\n' :: '\x7d' :: [])))
      = some ([("y", .jint y)], '\x7d' :: '\n' :: '\x7d' :: []) := by
  simp [parseFields, skipWs, isWsChar, parseStrRaw, strBody, parseVal_sp_int_nl]

theorem parseXY_members (f : ℕ) (x y : ℤ) :
    parseFields (f + 1 + 1 + 1)
        ('"' :: 'x' :: '"' :: ':' :: ' ' ::
          (intChars x ++ (',' :: '\n' :: ' ' :: ' ' :: ' ' :: ' ' ::
            '"' :: 'y' :: '"' :: ':' :: ' ' ::
              (intChars y ++ ('\n' :: ' ' :: ' ' :: '\x7d' :: '\n' :: '\x7d' :: [])))))
      = some ([("x", .jint x), ("y", .jint y)], '\x7d' :: '\n' :: '\x7d' :: []) := by
  simp [parseFields, skipWs, isWsChar, parseStrRaw, strBody,
    parseVal_sp_int_comma, parseVal_sp_int_nl, parseY_member]

theorem parsePlayer_value (f : ℕ) (x y : ℤ) :
    parseVal (f + 1 + 1 + 1 + 1)
        (' ' :: '\x7b' :: '\n' :: ' ' :: ' ' :: ' ' :: ' ' ::
          '"' :: 'x' :: '"' :: ':' :: ' ' ::
            (intChars x ++ (',' :: '\n' :: ' ' :: ' ' :: ' ' :: ' ' ::
              '"' :: 'y' :: '"' :: ':' :: ' ' ::
                (intChars y ++ ('\n' :: ' ' :: ' ' :: '\x7d' :: '\n' :: '\x7d' :: [])))))
      = some (.jobj [("x", .jint x), ("y", .jint y)], '\n' :: '\x7d' :: []) := by
  simp [parseVal, skipWs, isWsChar, parseXY_members]

theorem parsePlayer_member (f : ℕ) (x y : ℤ) :
    parseFields (f + 1 + 1 + 1 + 1 + 1)
        ('\n' :: ' ' :: ' ' :: '"' :: 'p' :: 'l' :: 'a' :: 'y' :: 'e' :: 'r' :: '"' :: ':' ::
          ' ' :: '\x7b' :: '\n' :: ' ' :: ' ' :: ' ' :: ' ' ::
            '"' :: 'x' :: '"' :: ':' :: ' ' ::
              (intChars x ++ (',' :: '\n' :: ' ' :: ' ' :: ' ' :: ' ' ::
                '"' :: 'y' :: '"' :: ':' :: ' ' ::
                  (intChars y ++ ('\n' :: ' ' :: ' ' :: '\x7d' :: '\n' :: '\x7d' :: [])))))
      = some ([("player", .jobj [("x", .jint x), ("y", .jint y)])], '\x7d' :: []) := by
  simp [parseFields, skipWs, isWsChar, parseStrRaw, strBody, parsePlayer_value,
    parseVal_sp_int_comma, parseVal_sp_int_nl, parseXY_members, parseY_member]

theorem parseSave_members (f : ℕ) (r : SaveRec) :
    parseFields (f + 1 + 1 + 1 + 1 + 1 + 1)
        ('"' :: 'c' :: 'h' :: 'a' :: 'p' :: 't' :: 'e' :: 'r' :: '"' :: ':' :: ' ' ::
          (intChars r.chapter ++
            (',' :: '\n' :: ' ' :: ' ' :: '"' :: 'p' :: 'l' :: 'a' :: 'y' :: 'e' :: 'r' :: '"' :: ':' ::
              ' ' :: '\x7b' :: '\n' :: ' ' :: ' ' :: ' ' :: ' ' ::
                '"' :: 'x' :: '"' :: ':' :: ' ' ::
                  (intChars r.x ++ (',' :: '\n' :: ' ' :: ' ' :: ' ' :: ' ' ::
                    '"' :: 'y' :: '"' :: ':' :: ' ' ::
                      (intChars r.y ++ ('\n' :: ' ' :: ' ' :: '\x7d' :: '\n' :: '\x7d' :: [])))))))
      = some ([("chapter", .jint r.chapter),
               ("player", .jobj [("x", .jint r.x), ("y", .jint r.y)])], '\x7d' :: []) := by
  simp [parseFields, skipWs, isWsChar, parseStrRaw, strBody,
    parseVal_sp_int_comma, parseVal_sp_int_nl, parsePlayer_member, parsePlayer_value,
    parseXY_members, parseY_member]

theorem parseVal_dumpSave (f : ℕ) (r : SaveRec) :
    parseVal (f + 1 + 1 + 1 + 1 + 1 + 1 + 1) (dumpSave r) = some (r.toJson, []) := by
  simp [dumpSave, SaveRec.toJson, parseVal, skipWs, isWsChar, parseSave_members]

theorem jsonLoads_dumpSave (r : SaveRec) :
    jsonLoads (String.mk (dumpSave r)) = some r.toJson := by
  have hlen : 6 ≤ (dumpSave r).length := by
    simp [dumpSave]
  have hfuel : (dumpSave r).length + 1
      = ((dumpSave r).length - 6) + 1 + 1 + 1 + 1 + 1 + 1 + 1 := by omega
  show (match parseVal ((dumpSave r).length + 1) (dumpSave r) with
        | some (j, rest) => if skipWs rest = [] then some j else none
        | none => none) = some r.toJson
  rw [hfuel, parseVal_dumpSave]
  rfl

/-! ### Game dynamics lemmas -/

theorem truncQ_zero : truncQ 0 = 0 := by
  simp [truncQ]

theorem sceneUpdate_chapter_noKeys (g : Game) (c : ChapterScene) (dt : ℕ)
    (h : g.scene = .chapter c) : sceneUpdate g noKeys dt = (g, []) := by
  obtain ⟨sv, sc, dk⟩ := g
  simp only at h
  subst h
  simp [sceneUpdate, noKeys, Rect.move_ip, truncQ]

theorem runUpdates_chapter_noKeys (dts : List ℕ) (g : Game) (c : ChapterScene)
    (h : g.scene = .chapter c) : runUpdates g noKeys dts = (g, []) := by
  induction dts with
  | nil => rfl
  | cons dt dts ih =>
    simp only [runUpdates, sceneUpdate_chapter_noKeys g c dt h, ih]
    rfl

theorem runUpdates_title_low (dts : List ℕ) :
    ∀ (g : Game) (t : ℕ), g.scene = .title t → t + dts.sum ≤ 2000 →
      runUpdates g noKeys dts = ({ g with scene := .title (t + dts.sum) }, []) := by
  induction dts with
  | nil =>
    intro g t hg hs
    obtain ⟨sv, sc, dk⟩ := g
    simp only at hg
    subst hg
    simp [runUpdates]
  | cons dt dts ih =>
    intro g t hg hs
    obtain ⟨sv, sc, dk⟩ := g
    simp only at hg
    subst hg
    have hdt : ¬ (2000 < t + dt) := by
      simp only [List.sum_cons] at hs
      omega
    have step : sceneUpdate ⟨sv, .title t, dk⟩ noKeys dt
        = (⟨sv, .title (t + dt), dk⟩, []) := by
      simp [sceneUpdate, hdt]
    have ih' := ih ⟨sv, .title (t + dt), dk⟩ (t + dt) rfl
      (by simp only [List.sum_cons] at hs; omega)
    simp only [runUpdates, step, ih', List.nil_append]
    simp only [List.sum_cons]
    rw [show t + (dt + dts.sum) = t + dt + dts.sum by omega]

theorem runUpdates_title_high (dts : List ℕ) :
    ∀ (g : Game) (t : ℕ), g.scene = .title t → t ≤ 2000 → 2000 < t + dts.sum →
      runUpdates g noKeys dts
        = ({ g with scene := sceneStartScene (.chapter (ChapterScene.make g.save.chapter)) },
           [.stopEv .titleT, .startEv (.chapterT g.save.chapter)]) := by
  induction dts with
  | nil =>
    intro g t hg ht hs
    simp only [List.sum_nil, Nat.add_zero] at hs
    omega
  | cons dt dts ih =>
    intro g t hg ht hs
    obtain ⟨sv, sc, dk⟩ := g
    simp only at hg
    subst hg
    by_cases hdt : 2000 < t + dt
    · have step : sceneUpdate ⟨sv, .title t, dk⟩ noKeys dt
          = (⟨sv, sceneStartScene (.chapter (ChapterScene.make sv.chapter)), dk⟩,
             [.stopEv .titleT, .startEv (.chapterT sv.chapter)]) := by
        simp [sceneUpdate, hdt, change_scene, sceneStop, tagOf, ChapterScene.make,
          ChapterScene.init]
      have hrest := runUpdates_chapter_noKeys dts
        ⟨sv, sceneStartScene (.chapter (ChapterScene.make sv.chapter)), dk⟩
        _ rfl
      simp only [runUpdates, step, hrest, List.append_nil]
    · have step : sceneUpdate ⟨sv, .title t, dk⟩ noKeys dt
          = (⟨sv, .title (t + dt), dk⟩, []) := by
        simp [sceneUpdate, hdt]
      have ih' := ih ⟨sv, .title (t + dt), dk⟩ (t + dt) rfl (by omega)
        (by simp only [List.sum_cons] at hs; omega)
      simp only [runUpdates, step, ih', List.nil_append]

theorem sceneStartScene_retag (s : Scene) (v : ChapterVariant) :
    sceneStartScene (s.retagChapter v) = (sceneStartScene s).retagChapter v := by
  cases s <;> rfl

theorem sceneUpdate_retag (g : Game) (c : ChapterScene) (v : ChapterVariant)
    (k : Keys) (dt : ℕ) (h : g.scene = .chapter c) :
    sceneUpdate { g with scene := .chapter (c.retag v) } k dt
      = ({ (sceneUpdate g k dt).1 with
            scene := ((sceneUpdate g k dt).1.scene).retagChapter v },
         (sceneUpdate g k dt).2) := by
  obtain ⟨sv, sc, dk⟩ := g
  simp only at h
  subst h
  by_cases he : k.escape = true
  · simp [sceneUpdate, he, change_scene, sceneStop, sceneStartScene, tagOf,
      ChapterScene.retag, Scene.retagChapter]
  · simp [sceneUpdate, he, ChapterScene.retag, Scene.retagChapter, Rect.move_ip]

theorem sceneUpdate_chapter_keys (g : Game) (c : ChapterScene) (k : Keys) (dt : ℕ)
    (h : g.scene = .chapter c) (hesc : k.escape = false) :
    sceneUpdate g k dt
      = ({ g with scene := .chapter { c with player :=
            (c.player.move_ip
              ((if k.k_a then -(c.speed * (dt : ℚ) / 1000) else 0) +
                (if k.k_d then c.speed * (dt : ℚ) / 1000 else 0))
              ((if k.k_w then -(c.speed * (dt : ℚ) / 1000) else 0) +
                (if k.k_s then c.speed * (dt : ℚ) / 1000 else 0))) } }, []) := by
  obtain ⟨sv, sc, dk⟩ := g
  simp only at h
  subst h
  simp [sceneUpdate, hesc]

/-! ### The claims -/

/-- C1: the specification says the player entity position is
initialized from the SaveRecord on chapter-scene start.  The code does
not do this: `ChapterScene.__init__` hard-codes `pg.Rect(50, 50, 16,
24)` and `start()` only sets `world_color`, so running the game from
the save `{chapter: 2, player: (99, 77)}` past the title threshold
yields a Chapter-2 scene whose entity sits at (50, 50), not (99, 77).
The persisted player position is written by `stop()` but never read
back anywhere — the code contradicts the evident intent. -/
theorem chapter_entity_fixed_position :
    ((runUpdates (DeltaGame.init ⟨2, 99, 77⟩ FileState.missing) noKeys [2001]).1).scene
      = Scene.chapter ⟨ChapterVariant.two, 2, ⟨50, 50, 16, 24⟩, 120, some (100, 40, 120)⟩ ∧
    ((50 : ℤ), (50 : ℤ)) ≠ ((99 : ℤ), (77 : ℤ)) :=
  ⟨rfl, by decide⟩

/-- C2 (counterexample): with speed 120 and dt = 16 ms, one update with
only the right key held moves the entity from x = 50 to x = 51: the
increase is the integer 1, not `speed * 0.016 = 1.92`, and it misses
1.92 by 0.92 — far outside any floating-point tolerance
(`pygame.Rect` truncates the float offset to an integer). -/
theorem movement_not_fractional :
    (sceneUpdate ⟨⟨1, 50, 50⟩, Scene.chapter (ChapterScene.make 1), FileState.missing⟩
        rightKey 16).1.scene
      = Scene.chapter { ChapterScene.make 1 with player := ⟨51, 50, 16, 24⟩ } ∧
    ¬ (((51 : ℚ) - 50) = 120 * (16 : ℚ) / 1000) ∧
    (9 / 10 : ℚ) ≤ |((51 : ℚ) - 50) - 120 * (16 : ℚ) / 1000| := by
  refine ⟨?_, by norm_num, ?_⟩
  · have h := sceneUpdate_chapter_keys
      ⟨⟨1, 50, 50⟩, Scene.chapter (ChapterScene.make 1), FileState.missing⟩
      (ChapterScene.make 1) rightKey 16 rfl rfl
    rw [h]
    simp only [Rect.move_ip, rightKey, ChapterScene.make, ChapterScene.init]
    norm_num [truncQ]
  · have : ((51 : ℚ) - 50) - 120 * (16 : ℚ) / 1000 = -(23 / 25) := by norm_num
    rw [this]
    rw [abs_neg, abs_of_nonneg (by norm_num : (0 : ℚ) ≤ 23 / 25)]
    norm_num

/-- C2 (amended): for a chapter scene with speed 120 and dt = 16 ms,
one update with only the right key held increases x by
`trunc(speed * dt / 1000) = trunc(1.92) = 1` whole pixel and leaves y
unchanged (`pygame.Rect` coordinates are integers and `move_ip`
truncates each float offset toward zero); with right and down held
simultaneously, x and y each increase by that same truncated per-axis
amount — there is still no diagonal speed normalization. -/
theorem movement_truncated (g : Game) (c : ChapterScene)
    (h : g.scene = .chapter c) (hs : c.speed = 120) :
    (sceneUpdate g rightKey 16).1.scene
        = .chapter { c with player := { c.player with x := c.player.x + 1 } } ∧
    (sceneUpdate g rightKey 16).2 = [] ∧
    (sceneUpdate g rightDownKeys 16).1.scene
        = .chapter { c with player :=
            { c.player with x := c.player.x + 1, y := c.player.y + 1 } } ∧
    (sceneUpdate g rightDownKeys 16).2 = [] ∧
    truncQ (c.speed * (16 : ℚ) / 1000) = 1 := by
  have h1 := sceneUpdate_chapter_keys g c rightKey 16 h rfl
  have h2 := sceneUpdate_chapter_keys g c rightDownKeys 16 h rfl
  refine ⟨?_, ?_, ?_, ?_, ?_⟩
  · rw [h1]
    simp only [Rect.move_ip, rightKey, hs]
    norm_num [truncQ]
  · rw [h1]
  · rw [h2]
    simp only [Rect.move_ip, rightDownKeys, hs]
    norm_num [truncQ]
  · rw [h2]
  · rw [hs]; norm_num [truncQ]

theorem movement_truncated_witness :
    (sceneUpdate ⟨⟨1, 50, 50⟩, Scene.chapter (ChapterScene.make 1), FileState.missing⟩
        rightKey 16).1.scene
      = Scene.chapter { ChapterScene.make 1 with player :=
          { (ChapterScene.make 1).player with x := (ChapterScene.make 1).player.x + 1 } } ∧
    truncQ ((ChapterScene.make 1).speed * (16 : ℚ) / 1000) = 1 := by
  have h := movement_truncated
    ⟨⟨1, 50, 50⟩, Scene.chapter (ChapterScene.make 1), FileState.missing⟩
    (ChapterScene.make 1) rfl rfl
  exact ⟨h.1, h.2.2.2.2⟩

/-- C3: `change_scene` emits the outgoing scene's `stop()` event
strictly before the incoming scene's `start()` event (for every pair of
scenes), and when the outgoing scene is a chapter scene, the save
record and the save file immediately after `change_scene` hold exactly
the chapter number and entity position that scene committed in
`stop()`; the installed scene is the started incoming scene. -/
theorem change_scene_stop_before_start (g : Game) (next : Scene) (c : ChapterScene)
    (h : g.scene = .chapter c) :
    (∀ (g' : Game) (n' : Scene),
        (change_scene g' n').2
          = [Event.stopEv (tagOf g'.scene), Event.startEv (tagOf n')]) ∧
    (change_scene g next).1.save = ⟨c.chapter_no, c.player.x, c.player.y⟩ ∧
    (change_scene g next).1.disk
        = FileState.present (String.mk (dumpSave ⟨c.chapter_no, c.player.x, c.player.y⟩)) ∧
    (change_scene g next).1.scene = sceneStartScene next := by
  refine ⟨?_, ?_, ?_, ?_⟩
  · intro g' n'
    obtain ⟨sv', sc', dk'⟩ := g'
    cases sc' <;> simp [change_scene, sceneStop, tagOf]
  all_goals
    obtain ⟨sv, sc, dk⟩ := g
    simp only at h
    subst h
    simp [change_scene, sceneStop, write_save]

theorem change_scene_stop_before_start_witness :
    (change_scene ⟨⟨1, 50, 50⟩, Scene.chapter (ChapterScene.make 2), FileState.missing⟩
        (Scene.title 0)).1.save
      = ⟨(ChapterScene.make 2).chapter_no, (ChapterScene.make 2).player.x,
          (ChapterScene.make 2).player.y⟩ ∧
    (change_scene ⟨⟨1, 50, 50⟩, Scene.chapter (ChapterScene.make 2), FileState.missing⟩
        (Scene.title 0)).2
      = [Event.stopEv (tagOf (Scene.chapter (ChapterScene.make 2))),
         Event.startEv (tagOf (Scene.title 0))] := by
  have h := change_scene_stop_before_start
    ⟨⟨1, 50, 50⟩, Scene.chapter (ChapterScene.make 2), FileState.missing⟩
    (Scene.title 0) (ChapterScene.make 2) rfl
  exact ⟨h.2.1, h.1 _ _⟩

/-- C4: starting the game loop (which starts a fresh title scene) and
updating with frame durations summing over 2000 ms produces exactly
one transition — one `stop`/`start` event pair — into the chapter
scene built by the factory from the SaveRecord's chapter field; for
durations summing to at most 2000 ms no transition occurs.  The whole
run is a pure function of the inputs, hence deterministic. -/
theorem title_auto_transition (r : SaveRec) (d : FileState) (dts : List ℕ)
    (h : 2000 < dts.sum) :
    (runUpdates (DeltaGame.init r d) noKeys dts).2
        = [Event.stopEv SceneTag.titleT, Event.startEv (SceneTag.chapterT r.chapter)] ∧
    (runUpdates (DeltaGame.init r d) noKeys dts).1.scene
        = Scene.chapter { ChapterScene.make r.chapter with
            world_color := some (50 * r.chapter, 20 * r.chapter, 60 * r.chapter) } ∧
    (∀ dts' : List ℕ, dts'.sum ≤ 2000 →
        (runUpdates (DeltaGame.init r d) noKeys dts').2 = []) := by
  have hh := runUpdates_title_high dts (DeltaGame.init r d) 0 rfl (by norm_num)
    (by simpa using h)
  refine ⟨?_, ?_, ?_⟩
  · rw [hh]
    rfl
  · rw [hh]
    rfl
  · intro dts' hle
    have hl := runUpdates_title_low dts' (DeltaGame.init r d) 0 rfl (by simpa using hle)
    rw [hl]

theorem title_auto_transition_witness :
    (runUpdates (DeltaGame.init ⟨2, 50, 50⟩ FileState.missing) noKeys [2001]).2
      = [Event.stopEv SceneTag.titleT, Event.startEv (SceneTag.chapterT 2)] :=
  (title_auto_transition ⟨2, 50, 50⟩ FileState.missing [2001] (by norm_num)).1

/-- C5: `ChapterScene.make` is total on the integers (it is a Lean
function): chapters 1–4 map to the correspondingly named subclasses
and every other integer maps to the generic base class with the same
instance data; and the class tag is behaviourally inert — `update` and
`start` commute with reassigning the tag, so every variant behaves
exactly like the generic one (the subclasses have empty bodies). -/
theorem factory_total_uniform (ch : ℤ)
    (h1 : ch ≠ 1) (h2 : ch ≠ 2) (h3 : ch ≠ 3) (h4 : ch ≠ 4) :
    ChapterScene.make 1 = ChapterScene.init ChapterVariant.one 1 ∧
    ChapterScene.make 2 = ChapterScene.init ChapterVariant.two 2 ∧
    ChapterScene.make 3 = ChapterScene.init ChapterVariant.three 3 ∧
    ChapterScene.make 4 = ChapterScene.init ChapterVariant.four 4 ∧
    ChapterScene.make ch = ChapterScene.init ChapterVariant.base ch ∧
    (∀ (v : ChapterVariant) (g : Game) (c : ChapterScene) (k : Keys) (dt : ℕ),
        g.scene = Scene.chapter c →
        sceneUpdate { g with scene := Scene.chapter (c.retag v) } k dt
          = ({ (sceneUpdate g k dt).1 with
                scene := ((sceneUpdate g k dt).1.scene).retagChapter v },
             (sceneUpdate g k dt).2)) ∧
    (∀ (v : ChapterVariant) (s : Scene),
        sceneStartScene (s.retagChapter v) = (sceneStartScene s).retagChapter v) := by
  refine ⟨rfl, rfl, rfl, rfl, ?_, ?_, ?_⟩
  · simp [ChapterScene.make, h1, h2, h3, h4]
  · exact fun v g c k dt h => sceneUpdate_retag g c v k dt h
  · exact fun v s => sceneStartScene_retag s v

theorem factory_total_uniform_witness :
    ChapterScene.make 7 = ChapterScene.init ChapterVariant.base 7 ∧
    ChapterScene.make 2 = ChapterScene.init ChapterVariant.two 2 := by
  have h := factory_total_uniform 7 (by decide) (by decide) (by decide) (by decide)
  exact ⟨h.2.2.2.2.1, h.2.1⟩

/-- C6: `load_save` is total (never raises): on a missing file, and on
any file content the JSON parser rejects, it returns the default
record `{chapter: 1, player: {x: 50, y: 50}}`. -/
theorem load_defaults (s : String) (h : jsonLoads s = none) :
    load_save (FileState.present s) = defaultSave ∧
    load_save FileState.missing = defaultSave := by
  constructor
  · simp [load_save, h]
  · rfl

theorem load_defaults_witness :
    jsonLoads "delta" = none ∧ load_save (FileState.present "delta") = defaultSave :=
  ⟨rfl, (load_defaults "delta" rfl).1⟩

/-- C7 (counterexample): the file content `{}` is valid JSON, so
`load_save` returns the parsed empty object as the record — it has no
`chapter` member and no `player` member and violates the SaveRecord
shape invariant.  `load_save` performs no shape validation. -/
theorem load_no_validation_cex :
    load_save (FileState.present "\x7b\x7d") = Json.jobj [] ∧
    validRecordShape (Json.jobj []) = false ∧
    lookupField ([] : List (String × Json)) "chapter" = none :=
  ⟨rfl, rfl, rfl⟩

/-- C7 (amended): every record `load_save` returns is either the
default record (which satisfies the shape invariant) — this covers the
missing-file and parse-failure cases — or the parsed file content
returned without any shape validation, so the invariant holds for
every possible file content only if the parsed content itself happens
to satisfy it. -/
theorem load_unvalidated (fs : FileState) :
    (load_save fs = defaultSave ∨
      ∃ s j, fs = FileState.present s ∧ jsonLoads s = some j ∧ load_save fs = j) ∧
    validRecordShape defaultSave = true := by
  constructor
  · cases fs with
    | missing => exact Or.inl rfl
    | present s =>
      cases hj : jsonLoads s with
      | none => exact Or.inl (by simp [load_save, hj])
      | some j => exact Or.inr ⟨s, j, rfl, hj, by simp [load_save, hj]⟩
  · rfl

/-- C8: writing any save record and loading it back yields exactly
that record: `load_save` after `write_save` recovers the written
`{chapter, player: {x, y}}` document whatever was on disk before (all
integer positions and chapter numbers included). -/
theorem write_then_load_roundtrip (r : SaveRec) (fs : FileState) :
    load_save (write_save r fs) = r.toJson := by
  show (match jsonLoads (String.mk (dumpSave r)) with
        | some j => j
        | none => defaultSave) = r.toJson
  rw [jsonLoads_dumpSave]

/-- C9: a successful `write_save` replaces the persisted content with
the serialization of the record, independently of the previous file
state (full overwrite, never an append); and since the body contains
no exception handler, an OS-level write failure is surfaced to the
caller as the error, never swallowed. -/
theorem write_overwrite_and_error (r : SaveRec) (fs fs' : FileState) :
    write_saveE r fs WriteOutcome.ok
        = Except.ok (FileState.present (String.mk (dumpSave r))) ∧
    write_saveE r fs WriteOutcome.ok = write_saveE r fs' WriteOutcome.ok ∧
    write_saveE r fs WriteOutcome.ioError = Except.error "IOError" :=
  ⟨rfl, rfl, rfl⟩

/-- C10: leaving the title scene mutates nothing: its `stop()` is the
inherited no-op, so after `change_scene` away from a title scene the
in-memory save record and the on-disk save file are exactly as before,
while the stop/start events still fire in order. -/
theorem title_stop_no_mutation (g : Game) (t : ℕ) (next : Scene)
    (h : g.scene = .title t) :
    (change_scene g next).1.save = g.save ∧
    (change_scene g next).1.disk = g.disk ∧
    (change_scene g next).2
      = [Event.stopEv SceneTag.titleT, Event.startEv (tagOf next)] := by
  obtain ⟨sv, sc, dk⟩ := g
  simp only at h
  subst h
  simp [change_scene, sceneStop]

theorem title_stop_no_mutation_witness :
    (change_scene ⟨⟨3, 1, 2⟩, Scene.title 500, FileState.present "x"⟩
        (Scene.chapter (ChapterScene.make 1))).1.save = ⟨3, 1, 2⟩ ∧
    (change_scene ⟨⟨3, 1, 2⟩, Scene.title 500, FileState.present "x"⟩
        (Scene.chapter (ChapterScene.make 1))).1.disk = FileState.present "x" := by
  have h := title_stop_no_mutation
    ⟨⟨3, 1, 2⟩, Scene.title 500, FileState.present "x"⟩ 500
    (Scene.chapter (ChapterScene.make 1)) rfl
  exact ⟨h.1, h.2.1⟩

end DeltaEngine
